import Mathlib

/-!
Verification of the JSON line validator (src/json_validator_v1.0.0.6.py).

The source is Python 2.  We shallowly embed the schema-validation engine:
decoded JSON values become an inductive `JVal`; the Python runtime-type tests
(`isinstance`, `type(x) == int`, the `bool <: int` subclassing) become explicit
functions on a `PyType` tag; each `errors.append` site in the source becomes a
constructor of a structured `Err` type carrying the data interpolated into the
message; the streaming driver becomes a fold over the list of decode results
(the JSON decoder itself is external to the engine).
-/

namespace JsonValidator

/-- The runtime type tags of the Python values the validator can see.
`objectT` is the type `object`, of which every value is an instance. -/
inductive PyType where
  | NoneType
  | boolT
  | intT
  | floatT
  | unicodeT
  | dictT
  | listT
  | objectT
deriving DecidableEq, Repr

/-- A decoded JSON value (the output of `json.loads` on one line).
Floats are opaque to the engine: no checker inspects a float's value
(only its runtime type), so the constructor carries no payload. -/
inductive JVal where
  | null
  | bool (b : Bool)
  | int (n : Int)
  | float
  | str (s : String)
  | obj (entries : List (String × JVal))
  | list (elems : List JVal)

/-- `type(v).__name__` of a candidate value. -/
def typeOf : JVal → PyType
  | .null => .NoneType
  | .bool _ => .boolT
  | .int _ => .intT
  | .float => .floatT
  | .str _ => .unicodeT
  | .obj _ => .dictT
  | .list _ => .listT

/-- Python's `isinstance(v, t)`: every value is an instance of `object`,
and `bool` is a subclass of `int`. -/
def isinstance (v : JVal) (t : PyType) : Bool :=
  match t with
  | .objectT => true
  | .intT => typeOf v == .intT || typeOf v == .boolT
  | t => typeOf v == t

/-- The example instances used as expected values in the schemas:
`unicode()`, `int()`, `bool()`, `object()` (each carrying its value, since
`DictTypeChecker` compares one of them by value with `int()`). -/
inductive PrimInst where
  | unicodeI (s : String)
  | intI (n : Int)
  | boolI (b : Bool)
  | objectI
deriving DecidableEq, Repr

/-- `type(expectedValue)` for a primitive example instance. -/
def primType : PrimInst → PyType
  | .unicodeI _ => .unicodeT
  | .intI _ => .intT
  | .boolI _ => .boolT
  | .objectI => .objectT

/-- The Python expression `expectedValue == int()`, i.e. value equality with
`0` (note `False == 0` holds in Python). -/
def pyEqIntZero : PrimInst → Bool
  | .intI n => n == 0
  | .boolI b => b == false
  | _ => false

/-- Python's `field.strip()`, on the character list of a string: remove
leading and trailing whitespace. -/
def stripChars (cs : List Char) : List Char :=
  ((cs.dropWhile Char.isWhitespace).reverse.dropWhile Char.isWhitespace).reverse

/-- `valid_entry` (source lines 39-42): a unicode value is valid iff it is
non-empty after stripping; any value of another type is valid. -/
def valid_entry : JVal → Bool
  | .str s => !(stripChars s.data).isEmpty
  | _ => true

/-- Whether Python 2's `int(s)` succeeds on a string: optional surrounding
whitespace, an optional sign, then a non-empty run of digits. -/
def intParseOk (s : String) : Bool :=
  let t := stripChars s.data
  let digits :=
    match t with
    | c :: rest => if c = '-' || c = '+' then rest else t
    | [] => t
  !digits.isEmpty && digits.all (·.isDigit)

/-- Whether `int(v)` succeeds (raises neither `TypeError` nor `ValueError`):
it truncates floats and converts bools, parses strings, and fails on
`None`, dicts and lists. -/
def intCoercible : JVal → Bool
  | .int _ => true
  | .bool _ => true
  | .float => true
  | .str s => intParseOk s
  | _ => false

mutual
/-- A field's expected specification: either a primitive example instance or a
nested `FieldChecker` (the source's duck-typed `expectedValue`). -/
inductive ExpectedValue where
  | prim (p : PrimInst)
  | checker (c : FieldChecker)

/-- `Field` (source lines 45-50): a named schema slot. -/
inductive Field where
  | mk (name : String) (expectedValue : ExpectedValue) (disallowedFields : List String)

/-- The four checker variants of the source.  `dictTypeChecker`'s expected
key/value instances are typed as primitives: the source accepts arbitrary
values there but, given a nested `FieldChecker`, its `_check_field`
unconditionally raises `TypeError` (line 114 concatenates a string with the
pair returned by `validate`); its docstring declares nesting unsupported and
both schemas instantiate it with primitives only. -/
inductive FieldChecker where
  | dictFieldChecker (required : List Field) (optional : List Field) (historical : List Field)
  | dictTypeChecker (expectedKeyTypeInstance : PrimInst) (expectedValueTypeInstance : PrimInst)
  | listTypeChecker (expectedTypeInstance : ExpectedValue)
  | stringListChecker (fields : List String)
end

def Field.name : Field → String
  | .mk n _ _ => n

def Field.expectedValue : Field → ExpectedValue
  | .mk _ e _ => e

def Field.disallowedFields : Field → List String
  | .mk _ _ d => d

/-- `topLevelType()` of each checker variant. -/
def FieldChecker.topLevelType : FieldChecker → PyType
  | .dictFieldChecker _ _ _ => .dictT
  | .dictTypeChecker _ _ => .dictT
  | .listTypeChecker _ => .listT
  | .stringListChecker _ => .unicodeT

/-- Structured error messages: one constructor per `errors.append` site of the
source, carrying the data interpolated into the message string. -/
inductive Err where
  /-- `FieldChecker.validate` top-level type mismatch (lines 79-81). -/
  | topTypeMismatch (expected found : PyType)
  /-- `DictTypeChecker._check_field` failed int coercion (lines 123-125). -/
  | dtcIntTypeError (fieldName : String) (value : JVal) (found : PyType)
  /-- `DictTypeChecker._check_field` plain type mismatch (lines 127-132). -/
  | dtcTypeError (fieldName : String) (value : JVal) (expected found : PyType)
  /-- `StringListChecker._validate` membership failure (lines 169-171). -/
  | slcNotInList (element : String) (fields : List String)
  /-- `ListTypeChecker._validate` nested error prefix (lines 206-208). -/
  | ltcElemError (pos : Nat) (inner : Err)
  /-- `ListTypeChecker._validate` element type mismatch (lines 211-217). -/
  | ltcElemTypeError (pos : Nat) (expected found : PyType)
  /-- `DictFieldChecker._check_field` nested error prefix (lines 282-285). -/
  | dfcFieldError (fieldName : String) (inner : Err)
  /-- `DictFieldChecker._type_error` (lines 274-277). -/
  | dfcTypeError (fieldName : String) (expected found : PyType)
  /-- `DictFieldChecker._validate` missing required field (line 319). -/
  | missingRequired (fieldName : String)
  /-- `DictFieldChecker._validate` unexpected field (line 336). -/
  | unexpectedField (fieldName : String)
  /-- `DictFieldChecker._check_field` disallowed co-occurrence (lines 302-305). -/
  | disallowedPair (fieldName unallowed : String)

/-- Structured warning messages (`warnings.append` sites). -/
inductive Warn where
  /-- "was required, but found an invalid entry" (lines 134-135 and 299-300). -/
  | invalidEntry (fieldName : String) (value : JVal)

/-- `fieldName in candidate` followed by `candidate[fieldName]` on a Python
dict, modelled on the entry list of a JSON object. -/
def dictFind (d : List (String × JVal)) (k : String) : Option JVal :=
  (d.find? (fun p => p.1 == k)).map (fun p => p.2)

/-- `candidate.pop(fieldName)`: drop the entry for a key. -/
def dictPop (d : List (String × JVal)) (k : String) : List (String × JVal) :=
  d.eraseP (fun p => p.1 == k)

/-- `originalCandidate.keys()`. -/
def dictKeys (d : List (String × JVal)) : List String := d.map Prod.fst

/-- `self.optional_dict = dict([(x.name, x) for x in historical + optional])`
(line 237), as the association list it is built from. -/
def optionalDict (historical optional : List Field) : List (String × Field) :=
  (historical ++ optional).map (fun x => (x.name, x))

/-- Lookup in `optional_dict`; a Python dict comprehension keeps the last
binding of a duplicated key, hence the lookup searches from the right. -/
def dictLookupLast (d : List (String × Field)) (k : String) : Option Field :=
  (d.reverse.find? (fun p => p.1 == k)).map (fun p => p.2)

/-- The `disallowedFields` loop of `DictFieldChecker._check_field` (source
lines 302-305): one error per declared disallowed name present among the
candidate's (original) keys. -/
def disallowedErrors (vname : String) (disallowed candidateFields : List String) : List Err :=
  disallowed.filterMap fun u =>
    if u ∈ candidateFields then some (Err.disallowedPair vname u) else none

/-- `DictTypeChecker._check_field` (source lines 111-135), for the primitive
expected instances the checker supports (see `FieldChecker`). -/
def DictTypeChecker._check_field (fieldName : String) (candidateField : JVal)
    (expectedValue : PrimInst) (required : Bool) : List Err × List Warn :=
  let errs :=
    if isinstance candidateField (primType expectedValue) then []
    else if pyEqIntZero expectedValue then
      if intCoercible candidateField then []
      else [Err.dtcIntTypeError fieldName candidateField (typeOf candidateField)]
    else [Err.dtcTypeError fieldName candidateField (primType expectedValue)
            (typeOf candidateField)]
  let warns :=
    if required && !(valid_entry candidateField) then
      [Warn.invalidEntry fieldName candidateField]
    else []
  (errs, warns)

/-- `DictTypeChecker._validate` (lines 137-146): check every key against the
key spec and every value against the value spec. -/
def dtcCheckPairs (kI vI : PrimInst) : List (String × JVal) → Bool → List Err × List Warn
  | [], _ => ([], [])
  | (k, v) :: rest, required =>
    let r1 := DictTypeChecker._check_field "key" (.str k) kI required
    let r2 := DictTypeChecker._check_field "value" v vI required
    let r3 := dtcCheckPairs kI vI rest required
    (r1.1 ++ r2.1 ++ r3.1, r1.2 ++ r2.2 ++ r3.2)

/-- A successful `optional_dict` lookup returns one of the fields the dict was
built from (used for the termination measure of the validation functions). -/
theorem dictLookupLast_mem {d : List (String × Field)} {k : String} {f : Field}
    (h : dictLookupLast d k = some f) : ∃ s, (s, f) ∈ d := by
  unfold dictLookupLast at h
  cases hf : d.reverse.find? (fun p => p.1 == k) with
  | none => rw [hf] at h; simp at h
  | some pr =>
    rw [hf] at h
    simp at h
    have hm := List.mem_of_find?_eq_some hf
    rw [List.mem_reverse] at hm
    exact ⟨pr.1, by rw [← h]; simpa using hm⟩

theorem optionalDict_lookup_sizeOf {hist opt : List Field} {k : String} {f : Field}
    (h : dictLookupLast (optionalDict hist opt) k = some f) :
    sizeOf f < sizeOf hist + sizeOf opt := by
  obtain ⟨s, hm⟩ := dictLookupLast_mem h
  unfold optionalDict at hm
  rw [List.mem_map] at hm
  obtain ⟨x, hx, hxe⟩ := hm
  have hxf : x = f := congrArg Prod.snd hxe
  subst hxf
  rcases List.mem_append.mp hx with hh | ho
  · have := List.sizeOf_lt_of_mem hh
    omega
  · have := List.sizeOf_lt_of_mem ho
    omega

mutual

/-- `FieldChecker.validate` (source lines 72-82): top-level kind check, then
dispatch to the variant's `_validate`. -/
def FieldChecker.validate (c : FieldChecker) (candidate : JVal) (required : Bool) :
    List Err × List Warn :=
  if isinstance candidate c.topLevelType then FieldChecker._validate c candidate required
  else ([Err.topTypeMismatch c.topLevelType (typeOf candidate)], [])
termination_by (sizeOf c, 0, 1)

/-- The variant-specific `_validate` methods.  The source asserts that the
candidate has the top-level type (`validate` guarantees it); the fall-through
branches below are unreachable through `validate`. -/
def FieldChecker._validate (c : FieldChecker) (candidate : JVal) (required : Bool) :
    List Err × List Warn :=
  match c with
  | .dictFieldChecker req opt hist =>
    match candidate with
    | .obj entries =>
      let candidate_fields := dictKeys entries
      let r1 := checkRequiredFields req entries candidate_fields
      let r2 := checkRemainingFields hist opt r1.2.2 candidate_fields
      (r1.1 ++ r2.1, r1.2.1 ++ r2.2)
    | _ => ([], [])
  | .dictTypeChecker kI vI =>
    match candidate with
    | .obj entries => dtcCheckPairs kI vI entries required
    | _ => ([], [])
  | .listTypeChecker spec =>
    match candidate with
    | .list elems => ltcCheckElems spec elems required 0
    | _ => ([], [])
  | .stringListChecker fs =>
    match candidate with
    | .str s => (if s ∈ fs then [] else [Err.slcNotInList s fs], [])
    | _ => ([], [])
termination_by (sizeOf c, 0, 0)

/-- The first loop of `DictFieldChecker._validate` (source lines 316-323):
process the required fields in declaration order, popping each present one
from the working copy of the candidate; returns the accumulated errors and
warnings together with the residual entries. -/
def checkRequiredFields (fields : List Field) (candidate : List (String × JVal))
    (candidate_fields : List String) : List Err × List Warn × List (String × JVal) :=
  match fields with
  | [] => ([], [], candidate)
  | f :: rest =>
    match dictFind candidate f.name with
    | none =>
      let r := checkRequiredFields rest candidate candidate_fields
      (Err.missingRequired f.name :: r.1, r.2.1, r.2.2)
    | some v =>
      let r1 := DictFieldChecker._check_field f.name v f candidate_fields true
      let r2 := checkRequiredFields rest (dictPop candidate f.name) candidate_fields
      (r1.1 ++ r2.1, r1.2 ++ r2.2.1, r2.2.2)
termination_by (sizeOf fields, 0, 0)

/-- The second loop of `DictFieldChecker._validate` (source lines 328-337):
every residual entry must name an optional/historical field. -/
def checkRemainingFields (hist opt : List Field) (remaining : List (String × JVal))
    (candidate_fields : List String) : List Err × List Warn :=
  match remaining with
  | [] => ([], [])
  | (fieldName, value) :: rest =>
    match hl : dictLookupLast (optionalDict hist opt) fieldName with
    | some vf =>
      let r1 := DictFieldChecker._check_field fieldName value vf candidate_fields false
      let r2 := checkRemainingFields hist opt rest candidate_fields
      (r1.1 ++ r2.1, r1.2 ++ r2.2)
    | none =>
      let r2 := checkRemainingFields hist opt rest candidate_fields
      (Err.unexpectedField fieldName :: r2.1, r2.2)
termination_by (sizeOf hist + sizeOf opt, remaining.length, 0)
decreasing_by
  all_goals first
    | exact Prod.Lex.left _ _ (optionalDict_lookup_sizeOf hl)
    | decreasing_tactic

/-- `DictFieldChecker._check_field` (source lines 279-305). -/
def DictFieldChecker._check_field (fieldName : String) (candidateField : JVal)
    (validationField : Field) (candidateFields : List String) (required : Bool) :
    List Err × List Warn :=
  match validationField with
  | .mk vname expectedValue disallowed =>
    let r1 :=
      match expectedValue with
      | .checker fc =>
        let r := FieldChecker.validate fc candidateField required
        (r.1.map (Err.dfcFieldError fieldName), r.2)
      | .prim p =>
        if isinstance candidateField (primType p) then ([], [])
        else if primType p = PyType.intT then
          if intCoercible candidateField then ([], [])
          else ([Err.dfcTypeError fieldName PyType.intT (typeOf candidateField)], [])
        else ([Err.dfcTypeError fieldName (primType p) (typeOf candidateField)], [])
    let entryWarns :=
      if required && !(valid_entry candidateField) then
        [Warn.invalidEntry fieldName candidateField]
      else []
    (r1.1 ++ disallowedErrors vname disallowed candidateFields, r1.2 ++ entryWarns)
termination_by (sizeOf validationField, 0, 2)

/-- `ListTypeChecker._validate` (source lines 198-219): check each element
against the element spec; a primitive spec gets a plain type check with no
integer coercion. -/
def ltcCheckElems (expectedTypeInstance : ExpectedValue) (elems : List JVal)
    (required : Bool) (pos : Nat) : List Err × List Warn :=
  match elems with
  | [] => ([], [])
  | elem :: rest =>
    let r1 :=
      match expectedTypeInstance with
      | .checker fc =>
        let r := FieldChecker.validate fc elem required
        (r.1.map (Err.ltcElemError pos), r.2)
      | .prim p =>
        if isinstance elem (primType p) then ([], [])
        else ([Err.ltcElemTypeError pos (primType p) (typeOf elem)], [])
    let r2 := ltcCheckElems expectedTypeInstance rest required (pos + 1)
    (r1.1 ++ r2.1, r1.2 ++ r2.2)
termination_by (sizeOf expectedTypeInstance, elems.length, 0)

end

/-- The required fields of `track_fields` (source lines 387-398). -/
def track_required : List Field :=
  [ .mk "type" (.prim (.unicodeI "")) [],
    .mk "id" (.prim (.unicodeI "")) [],
    .mk "name" (.prim (.unicodeI "")) [],
    .mk "artist" (.checker (.dictFieldChecker
      [ .mk "id" (.prim (.unicodeI "")) [],
        .mk "name" (.prim (.unicodeI "")) [] ] [] [])) [] ]

/-- The optional fields of `track_fields` (source lines 400-419). -/
def track_optional : List Field :=
  [ .mk "extras" (.checker (.dictTypeChecker (.unicodeI "") .objectI)) [],
    .mk "takedown" (.prim (.boolI false)) [],
    .mk "regions" (.checker (.listTypeChecker (.prim (.unicodeI ""))))
      ["regions_add", "regions_delete"],
    .mk "regions_add" (.checker (.listTypeChecker (.prim (.unicodeI "")))) ["regions"],
    .mk "regions_delete" (.checker (.listTypeChecker (.prim (.unicodeI "")))) ["regions"],
    .mk "ISRC" (.prim (.unicodeI "")) [],
    .mk "release_year" (.prim (.intI 0)) [],
    .mk "audio_url" (.prim (.unicodeI "")) [],
    .mk "release" (.checker (.dictFieldChecker
      [ .mk "id" (.prim (.unicodeI "")) [],
        .mk "name" (.prim (.unicodeI "")) [] ]
      [ .mk "release_year" (.prim (.intI 0)) [] ] [])) [] ]

/-- The historical fields of `track_fields` (source lines 421-423). -/
def track_historical : List Field := [ .mk "published" (.prim (.boolI false)) [] ]

/-- `track_fields` (source lines 386-424). -/
def track_fields : FieldChecker :=
  .dictFieldChecker track_required track_optional track_historical

/-- The required fields of `artist_fields` (source lines 428-431). -/
def artist_required : List Field :=
  [ .mk "id" (.prim (.unicodeI "")) [],
    .mk "name" (.prim (.unicodeI "")) [] ]

/-- The optional fields of `artist_fields` (source lines 433-439). -/
def artist_optional : List Field :=
  [ .mk "extras" (.checker (.dictTypeChecker (.unicodeI "") .objectI)) [],
    .mk "regions" (.checker (.listTypeChecker (.prim (.unicodeI ""))))
      ["regions_add", "regions_delete"],
    .mk "regions_add" (.checker (.listTypeChecker (.prim (.unicodeI "")))) ["regions"],
    .mk "regions_delete" (.checker (.listTypeChecker (.prim (.unicodeI "")))) ["regions"],
    .mk "takedown" (.prim (.boolI false)) [] ]

/-- The historical fields of `artist_fields` (source lines 441-443). -/
def artist_historical : List Field := [ .mk "published" (.prim (.boolI false)) [] ]

/-- `artist_fields` (source lines 427-444). -/
def artist_fields : FieldChecker :=
  .dictFieldChecker artist_required artist_optional artist_historical

/-- The two line/paragraph separator code points that incorrectly split
records (source line 19). -/
def JSON_UNICODE_PROBLEMS : List Char := ['\u2028', '\u2029']

/-- `safe_file_reader` (source lines 21-34): the generator state `nextLine`
is the pending fragment; the input list holds the remaining physical lines of
the file, the output the logical lines yielded. -/
def safe_file_reader (nextLine : String) : List String → List String
  | [] => if nextLine = "" then [] else [nextLine]
  | l :: ls =>
    let n := nextLine ++ l
    if JSON_UNICODE_PROBLEMS.contains n.back then safe_file_reader n ls
    else n :: safe_file_reader "" ls

/-- Concatenation of a list of strings (for stating that the reader loses no
characters). -/
def joinAll : List String → String
  | [] => ""
  | s :: rest => s ++ joinAll rest

/-- Driver-level error messages, one constructor per `errors.append` site of
`_validateFile`. -/
inductive DriverErr where
  /-- "Found invalid JSON" (source lines 360-363). -/
  | invalidJson (lineNo : Nat) (reason : String)
  /-- "Found valid JSON which does not match expected schema", aggregating the
  line's validation errors (source lines 366-370). -/
  | schemaMismatch (lineNo : Nat) (validateErrors : List Err)

/-- The loop of `_validateFile` (source lines 348-374), one step per logical
line.  `idx` is the `enumerate` index of the next line and `lineCount` the
current value of the Python variable of that name (0 before the first
iteration; the loop assigns it the index of each line it starts).  JSON
decoding is external to the engine, so the input is the list of per-line
decode results. -/
def _validateFileLoop (ingestion_fields : FieldChecker) (max_errors : Int) :
    Nat → Int → List DriverErr → List Warn → List (Except String JVal) →
    List DriverErr × List Warn × Int × Bool
  | _, lineCount, errors, warnings, [] => (errors, warnings, lineCount, false)
  | idx, _, errors, warnings, line :: rest =>
    if max_errors > 0 ∧ (errors.length : Int) ≥ max_errors then
      (errors, warnings, (idx : Int) - 1, true)
    else
      match line with
      | .error reason =>
        _validateFileLoop ingestion_fields max_errors (idx + 1) (idx : Int)
          (errors ++ [DriverErr.invalidJson (idx + 1) reason]) warnings rest
      | .ok candidate =>
        _validateFileLoop ingestion_fields max_errors (idx + 1) (idx : Int)
          (if 0 < (FieldChecker.validate ingestion_fields candidate true).1.length then
            errors ++ [DriverErr.schemaMismatch (idx + 1)
              (FieldChecker.validate ingestion_fields candidate true).1]
          else errors)
          (warnings ++ (FieldChecker.validate ingestion_fields candidate true).2) rest

/-- `_validateFile` (source lines 342-383): run the loop from the initial
state and return `(errors, warnings, lineCount + 1, stoppedEarly)`. -/
def _validateFile (ingestion_fields : FieldChecker) (max_errors : Int)
    (lines : List (Except String JVal)) : List DriverErr × List Warn × Int × Bool :=
  let r := _validateFileLoop ingestion_fields max_errors 0 0 [] [] lines
  (r.1, r.2.1, r.2.2.1 + 1, r.2.2.2)

/-- Whether a decode result makes the driver append one error: a decode
failure, or a decoded candidate failing schema validation. -/
def errTrigger (ingestion_fields : FieldChecker) : Except String JVal → Bool
  | .error _ => true
  | .ok candidate => 0 < (FieldChecker.validate ingestion_fields candidate true).1.length

/-! ## Claim theorems -/

/-- C10: for an empty input stream the driver returns `linesProcessed = 1`
(not 0), with empty errors, empty warnings and `stoppedEarly = false`:
the returned count is `lineCount + 1` where `lineCount` starts at 0 and the
empty loop never updates it. -/
theorem C10_empty_stream_linesProcessed_one (ingestion_fields : FieldChecker)
    (max_errors : Int) :
    _validateFile ingestion_fields max_errors [] = ([], [], 1, false) := rfl

/-- C7: for every checker variant and every candidate whose runtime kind
differs from the checker's top-level type, `validate` returns exactly the one
expected-versus-found error with no warnings, without descending into the
candidate. -/
theorem C7_top_level_kind_mismatch (c : FieldChecker) (v : JVal) (required : Bool)
    (h : isinstance v c.topLevelType = false) :
    FieldChecker.validate c v required
      = ([Err.topTypeMismatch c.topLevelType (typeOf v)], []) := by
  rw [FieldChecker.validate, h]
  simp

theorem C7_witness :
    isinstance (JVal.int 0) (FieldChecker.stringListChecker []).topLevelType = false
    ∧ FieldChecker.validate (.stringListChecker []) (.int 0) false
        = ([Err.topTypeMismatch .unicodeT .intT], []) :=
  ⟨by decide, C7_top_level_kind_mismatch (.stringListChecker []) (.int 0) false (by decide)⟩

/-- C6: integer coercion is asymmetric between list elements and map/object
fields: the sequence `["1"]` against a `ListTypeChecker` with integer element
spec yields a type error, while the text `"1"` against an integer spec in a
`DictTypeChecker` mapping value or a `DictFieldChecker` object field yields no
error because the coercion succeeds. -/
theorem C6_list_vs_map_coercion_asymmetry :
    FieldChecker.validate (.listTypeChecker (.prim (.intI 0))) (.list [.str "1"]) false
      = ([Err.ltcElemTypeError 0 .intT .unicodeT], [])
    ∧ FieldChecker.validate (.dictTypeChecker (.unicodeI "") (.intI 0))
        (.obj [("k", .str "1")]) false = ([], [])
    ∧ DictFieldChecker._check_field "release_year" (.str "1")
        (.mk "release_year" (.prim (.intI 0)) []) ["release_year"] false = ([], []) := by
  refine ⟨?_, ?_, ?_⟩ <;>
    simp [FieldChecker.validate, FieldChecker._validate, ltcCheckElems, dtcCheckPairs,
      DictTypeChecker._check_field, DictFieldChecker._check_field, isinstance, typeOf,
      FieldChecker.topLevelType, primType, pyEqIntZero, intCoercible, intParseOk,
      stripChars, valid_entry, disallowedErrors]

/-- C1 counterexample: the claim says every kind mismatch other than
text-in-integer-field emits a type-mismatch error directly, naming float and
boolean candidates in an integer-expected field as examples; the code instead
emits no error for either: `int()` succeeds on a float, and a boolean never
mismatches `int` at all (`bool` is a subclass of `int`). -/
theorem C1_counterexample :
    (DictFieldChecker._check_field "release_year" .float
      (.mk "release_year" (.prim (.intI 0)) []) ["release_year"] false).1 = []
    ∧ (DictFieldChecker._check_field "release_year" (.bool true)
      (.mk "release_year" (.prim (.intI 0)) []) ["release_year"] false).1 = [] := by
  constructor <;>
    simp [DictFieldChecker._check_field, isinstance, typeOf, primType, intCoercible,
      disallowedErrors]

/-- C1 (amended): in `DictFieldChecker` field checking with a primitive
expected spec, when the expected kind is integer the coercion attempt applies
to every mismatched candidate kind, not only text: a text candidate is parsed
and errors only on parse failure; a float candidate is accepted (truncating
`int()` succeeds); a boolean candidate never mismatches at all (`bool` is a
subclass of `int`); null, object and sequence candidates fail the coercion and
emit a type-mismatch error.  For every non-integer expected kind, a kind
mismatch emits a type-mismatch error directly. -/
theorem C1_amended_integer_coercion (fieldName vname : String) (n : Int)
    (dis cf : List String) (req : Bool) :
    (∀ s, (DictFieldChecker._check_field fieldName (.str s)
        (.mk vname (.prim (.intI n)) dis) cf req).1
      = (if intParseOk s then [] else [Err.dfcTypeError fieldName .intT .unicodeT])
        ++ disallowedErrors vname dis cf)
    ∧ (DictFieldChecker._check_field fieldName .float
        (.mk vname (.prim (.intI n)) dis) cf req).1 = disallowedErrors vname dis cf
    ∧ (∀ b, (DictFieldChecker._check_field fieldName (.bool b)
        (.mk vname (.prim (.intI n)) dis) cf req).1 = disallowedErrors vname dis cf)
    ∧ (∀ m, (DictFieldChecker._check_field fieldName (.int m)
        (.mk vname (.prim (.intI n)) dis) cf req).1 = disallowedErrors vname dis cf)
    ∧ (DictFieldChecker._check_field fieldName .null
        (.mk vname (.prim (.intI n)) dis) cf req).1
      = Err.dfcTypeError fieldName .intT .NoneType :: disallowedErrors vname dis cf
    ∧ (∀ es, (DictFieldChecker._check_field fieldName (.obj es)
        (.mk vname (.prim (.intI n)) dis) cf req).1
      = Err.dfcTypeError fieldName .intT .dictT :: disallowedErrors vname dis cf)
    ∧ (∀ xs, (DictFieldChecker._check_field fieldName (.list xs)
        (.mk vname (.prim (.intI n)) dis) cf req).1
      = Err.dfcTypeError fieldName .intT .listT :: disallowedErrors vname dis cf)
    ∧ (∀ (p : PrimInst) (v : JVal), primType p ≠ .intT →
        isinstance v (primType p) = false →
        (DictFieldChecker._check_field fieldName v (.mk vname (.prim p) dis) cf req).1
          = Err.dfcTypeError fieldName (primType p) (typeOf v)
            :: disallowedErrors vname dis cf) := by
  refine ⟨fun s => ?_, ?_, fun b => ?_, fun m => ?_, ?_, fun es => ?_, fun xs => ?_,
    fun p v hp hv => ?_⟩
  · cases h : intParseOk s <;>
      simp [DictFieldChecker._check_field, isinstance, typeOf, primType, intCoercible, h]
  case refine_8 => simp [DictFieldChecker._check_field, hv, hp]
  all_goals
    simp [DictFieldChecker._check_field, isinstance, typeOf, primType, intCoercible]

theorem C1_amended_witness :
    (DictFieldChecker._check_field "f" (.int 3)
      (.mk "f" (.prim (.unicodeI "")) []) [] false).1
      = [Err.dfcTypeError "f" .unicodeT .intT] :=
  (C1_amended_integer_coercion "f" "f" 0 [] [] false).2.2.2.2.2.2.2
    (.unicodeI "") (.int 3) (by decide) (by decide)

/-- C5: a required field present but blank after trimming produces a warning,
not an error: the artist record with a blank `name` validates with zero errors
and exactly one warning for `name`; and `valid_entry` holds for every
non-text value and for every text value non-empty after stripping. -/
theorem C5_blank_required_field_warns :
    FieldChecker.validate artist_fields
      (.obj [("id", .str "A1"), ("name", .str ""), ("published", .bool true)]) true
      = ([], [Warn.invalidEntry "name" (.str "")])
    ∧ (∀ v : JVal, typeOf v ≠ .unicodeT → valid_entry v = true)
    ∧ (∀ s : String, stripChars s.data ≠ [] → valid_entry (.str s) = true) := by
  refine ⟨?_, fun v hv => ?_, fun s hs => ?_⟩
  · simp [FieldChecker.validate, FieldChecker._validate, checkRequiredFields,
      checkRemainingFields, DictFieldChecker._check_field, isinstance, typeOf,
      FieldChecker.topLevelType, dictKeys, dictFind, dictPop, dictLookupLast,
      optionalDict, valid_entry, stripChars, artist_fields, artist_required,
      artist_optional, artist_historical, primType, Field.name, Field.expectedValue,
      Field.disallowedFields, disallowedErrors, List.find?, List.reverse,
      List.reverseAux, List.eraseP]
  · cases v <;> simp_all [valid_entry, typeOf]
  · simp [valid_entry, List.isEmpty_iff, hs]

theorem C5_witness :
    valid_entry (.int 0) = true ∧ valid_entry (.str "x") = true :=
  ⟨C5_blank_required_field_warns.2.1 (.int 0) (by decide),
   C5_blank_required_field_warns.2.2 "x" (by decide)⟩

/-- C9: validating the single decoded line
`{"type":"track","id":"T1","name":"Song","artist":{"id":"A1","name":"Artist"}}`
against the track schema yields zero errors, zero warnings, and
`linesProcessed = 1` (for any configured error budget). -/
theorem C9_track_end_to_end (max_errors : Int) :
    _validateFile track_fields max_errors
      [.ok (.obj [("type", .str "track"), ("id", .str "T1"), ("name", .str "Song"),
        ("artist", .obj [("id", .str "A1"), ("name", .str "Artist")])])]
      = ([], [], 1, false) := by
  have hv : FieldChecker.validate track_fields
      (.obj [("type", .str "track"), ("id", .str "T1"), ("name", .str "Song"),
        ("artist", .obj [("id", .str "A1"), ("name", .str "Artist")])]) true
      = ([], []) := by
    simp [FieldChecker.validate, FieldChecker._validate, checkRequiredFields,
      checkRemainingFields, DictFieldChecker._check_field, isinstance, typeOf,
      FieldChecker.topLevelType, dictKeys, dictFind, dictPop, dictLookupLast,
      optionalDict, valid_entry, stripChars, track_fields, track_required,
      track_optional, track_historical, primType, Field.name, Field.expectedValue,
      Field.disallowedFields, disallowedErrors, List.find?, List.reverse,
      List.reverseAux, List.eraseP]
  have hcond : ¬(0 < max_errors ∧ max_errors ≤ 0) := by omega
  simp [_validateFile, _validateFileLoop, hv, hcond]

/-- Every logical line yielded before end-of-stream ends the else-branch of
the reader, so it does not end in a problem separator. -/
theorem safe_file_reader_all_dropLast (ls : List String) : ∀ acc,
    ((safe_file_reader acc ls).dropLast.all
      fun s => !(JSON_UNICODE_PROBLEMS.contains s.back)) = true := by
  induction ls with
  | nil =>
    intro acc
    by_cases h : acc = "" <;> simp [safe_file_reader, h]
  | cons l ls ih =>
    intro acc
    by_cases h : (acc ++ l).back ∈ JSON_UNICODE_PROBLEMS
    · simpa [safe_file_reader, h] using ih (acc ++ l)
    · have hr := ih ""
      cases hc : safe_file_reader "" ls with
      | nil => simp [safe_file_reader, h, hc]
      | cons y t =>
        rw [hc] at hr
        simp only [safe_file_reader, hc] at hr ⊢
        simp [h, hr]
        simpa using hr

/-- The reader drops no characters: the concatenation of its output is the
pending fragment followed by the concatenation of the remaining input. -/
theorem safe_file_reader_joinAll (ls : List String) : ∀ acc,
    joinAll (safe_file_reader acc ls) = acc ++ joinAll ls := by
  induction ls with
  | nil =>
    intro acc
    by_cases h : acc = "" <;> simp [safe_file_reader, h, joinAll]
  | cons l ls ih =>
    intro acc
    by_cases h : (acc ++ l).back ∈ JSON_UNICODE_PROBLEMS
    · simp [safe_file_reader, h, joinAll, ih (acc ++ l), String.append_assoc]
    · simp [safe_file_reader, h, joinAll, ih "", String.append_assoc]

/-- C8: the line reassembler never ends a logical line at a physical line
terminating in either problem separator (every yielded line except possibly
the final end-of-stream fragment ends in a non-problem character), and no
characters are lost: the concatenation of the logical lines equals the
concatenation of the physical lines, so a non-empty final fragment is yielded
even without a trailing terminator. -/
theorem C8_line_reassembler (physical : List String) :
    ((safe_file_reader "" physical).dropLast.all
      fun s => !(JSON_UNICODE_PROBLEMS.contains s.back)) = true
    ∧ joinAll (safe_file_reader "" physical) = joinAll physical := by
  refine ⟨safe_file_reader_all_dropLast physical "", ?_⟩
  rw [safe_file_reader_joinAll physical ""]
  exact String.empty_append _

/-! ### Counting helpers for the field-level errors -/

/-- Recognize the missing-required-field error for a given name. -/
def isMissingRequired (n : String) : Err → Bool
  | .missingRequired m => m == n
  | _ => false

/-- Recognize the disallowed-co-occurrence error for a given declared pair. -/
def isDisallowedPair (a b : String) : Err → Bool
  | .disallowedPair x y => x == a && y == b
  | _ => false

/-- `dictFind` misses exactly the names outside the candidate's key set. -/
theorem dictFind_eq_none {d : List (String × JVal)} {k : String} :
    dictFind d k = none ↔ k ∉ dictKeys d := by
  simp only [dictFind, Option.map_eq_none', List.find?_eq_none, dictKeys, List.mem_map]
  constructor
  · rintro h ⟨⟨a, v⟩, hm, rfl⟩
    have := h (a, v) hm
    simp at this
  · intro h p hp
    simp only [beq_iff_eq]
    rintro rfl
    exact h ⟨p, hp, rfl⟩

/-- Popping preserves the absence of a key. -/
theorem dictFind_pop_none {d : List (String × JVal)} {k m : String}
    (h : dictFind d k = none) : dictFind (dictPop d m) k = none := by
  rw [dictFind_eq_none] at h ⊢
  intro hmem
  apply h
  simp only [dictKeys, List.mem_map] at hmem ⊢
  obtain ⟨p, hp, hpe⟩ := hmem
  exact ⟨p, (List.eraseP_sublist d).mem hp, hpe⟩

/-- Every error of `disallowedErrors` is a `disallowedPair` for the declaring
field, a declared disallowed name present among the keys. -/
theorem mem_disallowedErrors {vname : String} {dis cf : List String} {e : Err}
    (h : e ∈ disallowedErrors vname dis cf) :
    ∃ u, e = .disallowedPair vname u ∧ u ∈ dis ∧ u ∈ cf := by
  simp only [disallowedErrors, List.mem_filterMap] at h
  obtain ⟨u, hu, he⟩ := h
  by_cases hc : u ∈ cf
  · rw [if_pos hc] at he
    exact ⟨u, by simpa using he.symm, hu, hc⟩
  · rw [if_neg hc] at he
    cases he

/-- The errors of `DictFieldChecker._check_field` split into a type-check part
(prefixed nested errors or a type error, all carrying the checked key) and
the disallowed-pair part. -/
theorem check_field_errors_split (fieldName : String) (v : JVal) (f : Field)
    (cf : List String) (req : Bool) :
    ∃ pre, (DictFieldChecker._check_field fieldName v f cf req).1
        = pre ++ disallowedErrors f.name f.disallowedFields cf
      ∧ ∀ e ∈ pre, (∃ inner, e = .dfcFieldError fieldName inner)
          ∨ ∃ a b, e = .dfcTypeError fieldName a b := by
  obtain ⟨vname, ev, dis⟩ := f
  rw [DictFieldChecker._check_field.eq_def]
  simp only [Field.name, Field.disallowedFields]
  cases ev with
  | checker fc =>
    refine ⟨(FieldChecker.validate fc v req).1.map (Err.dfcFieldError fieldName), rfl, ?_⟩
    intro e he
    obtain ⟨inner, _, rfl⟩ := List.mem_map.mp he
    exact .inl ⟨inner, rfl⟩
  | prim p =>
    by_cases h1 : isinstance v (primType p) = true
    · exact ⟨[], by simp [h1], by simp⟩
    · rw [Bool.not_eq_true] at h1
      by_cases h2 : primType p = PyType.intT
      · have h1i : isinstance v PyType.intT = false := h2 ▸ h1
        by_cases h3 : intCoercible v = true
        · exact ⟨[], by simp [h1i, h2, h3], by simp⟩
        · rw [Bool.not_eq_true] at h3
          refine ⟨[Err.dfcTypeError fieldName PyType.intT (typeOf v)],
            by simp [h1i, h2, h3], ?_⟩
          intro e he
          simp only [List.mem_singleton] at he
          exact .inr ⟨_, _, he⟩
      · refine ⟨[Err.dfcTypeError fieldName (primType p) (typeOf v)], by simp [h1, h2], ?_⟩
        intro e he
        simp only [List.mem_singleton] at he
        exact .inr ⟨_, _, he⟩

/-- `_check_field` never emits a bare missing-required error. -/
theorem check_field_countP_missing (fieldName : String) (v : JVal) (f : Field)
    (cf : List String) (req : Bool) (n : String) :
    (DictFieldChecker._check_field fieldName v f cf req).1.countP (isMissingRequired n) = 0 := by
  obtain ⟨pre, heq, hpre⟩ := check_field_errors_split fieldName v f cf req
  rw [heq, List.countP_eq_zero]
  intro e he
  rcases List.mem_append.mp he with h | h
  · rcases hpre e h with ⟨inner, rfl⟩ | ⟨a, b, rfl⟩ <;> simp [isMissingRequired]
  · obtain ⟨u, rfl, -, -⟩ := mem_disallowedErrors h
    simp [isMissingRequired]

/-- Unfolding of `validate` on a `DictFieldChecker` and an object candidate:
the kind check passes and both loops of `_validate` run. -/
theorem validate_dfc (req opt hist : List Field) (entries : List (String × JVal)) (r : Bool) :
    FieldChecker.validate (.dictFieldChecker req opt hist) (.obj entries) r
      = ((checkRequiredFields req entries (dictKeys entries)).1
          ++ (checkRemainingFields hist opt
              (checkRequiredFields req entries (dictKeys entries)).2.2 (dictKeys entries)).1,
         (checkRequiredFields req entries (dictKeys entries)).2.1
          ++ (checkRemainingFields hist opt
              (checkRequiredFields req entries (dictKeys entries)).2.2 (dictKeys entries)).2) := by
  rw [FieldChecker.validate]
  simp [isinstance, typeOf, FieldChecker.topLevelType, FieldChecker._validate]

/-- Skipping an absent required field only inserts its missing-field error:
the rest of the required loop is unaffected (same warnings, same residual). -/
theorem reqSkip (f : Field) (pre : List Field) : ∀ (post : List Field)
    (cand : List (String × JVal)) (cf : List String),
    dictFind cand f.name = none →
    ∃ A B, checkRequiredFields (pre ++ f :: post) cand cf
        = (A ++ Err.missingRequired f.name :: B,
           (checkRequiredFields (pre ++ post) cand cf).2.1,
           (checkRequiredFields (pre ++ post) cand cf).2.2)
      ∧ (checkRequiredFields (pre ++ post) cand cf).1 = A ++ B := by
  induction pre with
  | nil =>
    intro post cand cf habs
    refine ⟨[], (checkRequiredFields post cand cf).1, ?_, by simp⟩
    simp [checkRequiredFields, habs]
  | cons g pre ih =>
    intro post cand cf habs
    rw [List.cons_append, List.cons_append]
    cases hg : dictFind cand g.name with
    | none =>
      obtain ⟨A, B, h1, h2⟩ := ih post cand cf habs
      refine ⟨Err.missingRequired g.name :: A, B, ?_, ?_⟩
      · simp [checkRequiredFields, hg, h1]
      · simp [checkRequiredFields, hg, h2]
    | some v =>
      obtain ⟨A, B, h1, h2⟩ := ih post (dictPop cand g.name) cf (dictFind_pop_none habs)
      refine ⟨(DictFieldChecker._check_field g.name v g cf true).1 ++ A, B, ?_, ?_⟩
      · simp [checkRequiredFields, hg, h1]
      · simp [checkRequiredFields, hg, h2]

/-- The required loop emits no missing-field error for a name no required
field bears. -/
theorem req_countP_missing_zero (n : String) (fields : List Field) :
    ∀ (cand : List (String × JVal)) (cf : List String),
    (∀ g ∈ fields, g.name ≠ n) →
    (checkRequiredFields fields cand cf).1.countP (isMissingRequired n) = 0 := by
  induction fields with
  | nil => intro cand cf _; simp [checkRequiredFields]
  | cons g rest ih =>
    intro cand cf h
    have hg : g.name ≠ n := h g (by simp)
    have hr : ∀ x ∈ rest, x.name ≠ n := fun x hx => h x (by simp [hx])
    cases hf : dictFind cand g.name with
    | none =>
      simp only [checkRequiredFields, hf]
      rw [List.countP_cons]
      simp [isMissingRequired, hg, ih cand cf hr]
    | some v =>
      simp only [checkRequiredFields, hf]
      rw [List.countP_append, check_field_countP_missing]
      simp [ih _ cf hr]

/-- The remaining-fields loop emits no missing-field error at all. -/
theorem rem_countP_missing_zero (n : String) (hist opt : List Field)
    (rem : List (String × JVal)) : ∀ (cf : List String),
    (checkRemainingFields hist opt rem cf).1.countP (isMissingRequired n) = 0 := by
  induction rem with
  | nil => intro cf; simp [checkRemainingFields]
  | cons kv rest ih =>
    intro cf
    obtain ⟨k, v⟩ := kv
    simp only [checkRemainingFields]
    split
    · rw [List.countP_append, check_field_countP_missing]
      simp [ih cf]
    · rw [List.countP_cons]
      simp [isMissingRequired, ih cf]

/-- C4: for every candidate object missing one required field, the errors
contain exactly one missing-required message naming that field, and
validation does not short-circuit: dropping the absent field from the schema
yields exactly the same errors minus that message, with identical warnings
(all other fields still contribute their own errors and warnings). -/
theorem C4_missing_required_field (pre post opt hist : List Field) (f : Field)
    (entries : List (String × JVal)) (required : Bool)
    (habs : f.name ∉ dictKeys entries)
    (hother : f.name ∉ (pre ++ post).map Field.name) :
    ∃ A B W,
      FieldChecker.validate (.dictFieldChecker (pre ++ f :: post) opt hist)
          (.obj entries) required = (A ++ Err.missingRequired f.name :: B, W)
      ∧ FieldChecker.validate (.dictFieldChecker (pre ++ post) opt hist)
          (.obj entries) required = (A ++ B, W)
      ∧ (FieldChecker.validate (.dictFieldChecker (pre ++ f :: post) opt hist)
          (.obj entries) required).1.countP (isMissingRequired f.name) = 1 := by
  have hfind : dictFind entries f.name = none := dictFind_eq_none.mpr habs
  obtain ⟨A, B, h1, h2⟩ := reqSkip f pre post entries (dictKeys entries) hfind
  rw [validate_dfc, validate_dfc, h1, h2]
  have hAB : (A ++ B).countP (isMissingRequired f.name) = 0 := by
    rw [← h2]
    refine req_countP_missing_zero _ _ _ _ fun g hg => ?_
    intro hgn
    exact hother (List.mem_map.mpr ⟨g, hg, hgn⟩)
  have hA : A.countP (isMissingRequired f.name) = 0 := by
    rw [List.countP_append] at hAB; omega
  have hB : B.countP (isMissingRequired f.name) = 0 := by
    rw [List.countP_append] at hAB; omega
  have hR : ((checkRemainingFields hist opt
      (checkRequiredFields (pre ++ post) entries (dictKeys entries)).2.2
      (dictKeys entries)).1).countP (isMissingRequired f.name) = 0 :=
    rem_countP_missing_zero _ _ _ _ _
  refine ⟨A, B ++ (checkRemainingFields hist opt
      (checkRequiredFields (pre ++ post) entries (dictKeys entries)).2.2
      (dictKeys entries)).1,
    (checkRequiredFields (pre ++ post) entries (dictKeys entries)).2.1
      ++ (checkRemainingFields hist opt
        (checkRequiredFields (pre ++ post) entries (dictKeys entries)).2.2
        (dictKeys entries)).2, by simp, by simp, ?_⟩
  simp only [List.countP_append, List.countP_cons, hA, hB, hR]
  simp [isMissingRequired]

theorem C4_witness :
    ∃ A B W,
      FieldChecker.validate (.dictFieldChecker
          ([Field.mk "id" (.prim (.unicodeI "")) []]
            ++ Field.mk "name" (.prim (.unicodeI "")) [] :: [])
          artist_optional artist_historical) (.obj [("id", .str "A1")]) true
        = (A ++ Err.missingRequired "name" :: B, W)
      ∧ FieldChecker.validate (.dictFieldChecker
          ([Field.mk "id" (.prim (.unicodeI "")) []] ++ [])
          artist_optional artist_historical) (.obj [("id", .str "A1")]) true
        = (A ++ B, W)
      ∧ (FieldChecker.validate (.dictFieldChecker
          ([Field.mk "id" (.prim (.unicodeI "")) []]
            ++ Field.mk "name" (.prim (.unicodeI "")) [] :: [])
          artist_optional artist_historical) (.obj [("id", .str "A1")]) true).1.countP
          (isMissingRequired "name") = 1 :=
  C4_missing_required_field [Field.mk "id" (.prim (.unicodeI "")) []] []
    artist_optional artist_historical (Field.mk "name" (.prim (.unicodeI "")) [])
    [("id", .str "A1")] true (by decide) (by decide)

/-! ### Key-set bookkeeping for the required-fields loop -/

theorem dictKeys_pop_sublist (d : List (String × JVal)) (m : String) :
    (dictKeys (dictPop d m)).Sublist (dictKeys d) :=
  (List.eraseP_sublist d).map Prod.fst

/-- The residual entries of the required loop form a sublist of the working
candidate it started from. -/
theorem req_residual_sublist (fields : List Field) : ∀ (cand : List (String × JVal))
    (cf : List String), ((checkRequiredFields fields cand cf).2.2).Sublist cand := by
  induction fields with
  | nil => intro cand cf; simp [checkRequiredFields]
  | cons g rest ih =>
    intro cand cf
    cases hg : dictFind cand g.name with
    | none => simpa [checkRequiredFields, hg] using ih cand cf
    | some v =>
      simp only [checkRequiredFields, hg]
      exact (ih (dictPop cand g.name) cf).trans (List.eraseP_sublist cand)

/-- Key membership through the entries. -/
theorem mem_dictKeys_iff {d : List (String × JVal)} {k : String} :
    k ∈ dictKeys d ↔ ∃ v, (k, v) ∈ d := by
  simp only [dictKeys, List.mem_map]
  constructor
  · rintro ⟨⟨a, v⟩, h, rfl⟩; exact ⟨v, h⟩
  · rintro ⟨v, h⟩; exact ⟨(k, v), h, rfl⟩

/-- Popping another key preserves key membership. -/
theorem mem_dictKeys_pop {d : List (String × JVal)} {k m : String}
    (hne : k ≠ m) (hk : k ∈ dictKeys d) : k ∈ dictKeys (dictPop d m) := by
  rw [mem_dictKeys_iff] at hk ⊢
  obtain ⟨v, hv⟩ := hk
  exact ⟨v, (List.mem_eraseP_of_neg (by simpa using hne)).mpr hv⟩

/-- With duplicate-free keys, popping a key removes it. -/
theorem pop_self_not_mem {d : List (String × JVal)} {k : String}
    (h : (dictKeys d).Nodup) : k ∉ dictKeys (dictPop d k) := by
  induction d with
  | nil => simp [dictPop, dictKeys]
  | cons p rest ih =>
    rw [dictKeys, List.map_cons, List.nodup_cons] at h
    by_cases hp : p.1 = k
    · rw [dictPop, List.eraseP_cons_of_pos (by simpa using hp)]
      intro hmem
      exact h.1 (hp ▸ hmem)
    · rw [dictPop, List.eraseP_cons_of_neg (by simpa using hp)]
      simp only [dictKeys, List.map_cons, List.mem_cons]
      rintro (hk | hk)
      · exact hp hk.symm
      · exact ih h.2 (by simpa [dictPop, dictKeys] using hk)

/-- A name borne by some required field is never among the residual keys
(either it was absent from the candidate, or it was popped). -/
theorem req_residual_not_mem (fields : List Field) : ∀ (cand : List (String × JVal))
    (cf : List String) (n : String), (dictKeys cand).Nodup →
    (∃ g ∈ fields, g.name = n) →
    n ∉ dictKeys (checkRequiredFields fields cand cf).2.2 := by
  induction fields with
  | nil => rintro cand cf n - ⟨g, hg, -⟩; cases hg
  | cons g rest ih =>
    rintro cand cf n hnd ⟨g', hg', hgn⟩
    rcases List.mem_cons.mp hg' with rfl | hg'
    · cases hg : dictFind cand g'.name with
      | none =>
        have habs : g'.name ∉ dictKeys cand := dictFind_eq_none.mp hg
        simp only [checkRequiredFields, hg]
        intro hmem
        rw [hgn] at habs
        exact habs (((req_residual_sublist rest cand cf).map Prod.fst).mem hmem)
      | some v =>
        simp only [checkRequiredFields, hg]
        intro hmem
        have hpop : n ∉ dictKeys (dictPop cand g'.name) := by
          rw [hgn]; exact pop_self_not_mem hnd
        exact hpop
          (((req_residual_sublist rest (dictPop cand g'.name) cf).map Prod.fst).mem hmem)
    · cases hg : dictFind cand g.name with
      | none =>
        simp only [checkRequiredFields, hg]
        exact ih cand cf n hnd ⟨g', hg', hgn⟩
      | some v =>
        simp only [checkRequiredFields, hg]
        exact ih (dictPop cand g.name) cf n
          (hnd.sublist (dictKeys_pop_sublist cand g.name)) ⟨g', hg', hgn⟩

/-- A key no required field bears survives the required loop. -/
theorem req_residual_mem (fields : List Field) : ∀ (cand : List (String × JVal))
    (cf : List String) (n : String), (∀ g ∈ fields, g.name ≠ n) →
    n ∈ dictKeys cand → n ∈ dictKeys (checkRequiredFields fields cand cf).2.2 := by
  induction fields with
  | nil => intro cand cf n _ hk; simpa [checkRequiredFields] using hk
  | cons g rest ih =>
    intro cand cf n h hk
    have hg : g.name ≠ n := h g (by simp)
    have hr : ∀ x ∈ rest, x.name ≠ n := fun x hx => h x (by simp [hx])
    cases hf : dictFind cand g.name with
    | none =>
      simp only [checkRequiredFields, hf]
      exact ih cand cf n hr hk
    | some v =>
      simp only [checkRequiredFields, hf]
      exact ih (dictPop cand g.name) cf n hr (mem_dictKeys_pop (fun he => hg he.symm) hk)

/-! ### Counting disallowed-co-occurrence errors -/

/-- The count of a given disallowed-pair error among one field's
`disallowedErrors`: one per declaration of the disallowed name, when the
declaring field bears the first name and the disallowed name is a present
key. -/
theorem countP_disallowedErrors (vname a b : String) (dis cf : List String) :
    (disallowedErrors vname dis cf).countP (isDisallowedPair a b)
      = if a = vname ∧ b ∈ cf then dis.count b else 0 := by
  induction dis with
  | nil => simp [disallowedErrors]
  | cons u rest ih =>
    simp only [disallowedErrors] at ih ⊢
    rw [List.filterMap_cons]
    by_cases hu : u ∈ cf
    · rw [if_pos hu]
      rw [List.countP_cons, ih, List.count_cons]
      by_cases hav : a = vname <;> by_cases hb : b ∈ cf <;> by_cases hub : u = b <;>
        simp_all [isDisallowedPair] <;> first | omega | exact fun h => hav h.symm
    · rw [if_neg hu, ih, List.count_cons]
      by_cases hav : a = vname <;> by_cases hb : b ∈ cf <;> by_cases hub : u = b <;>
        simp_all <;> first | omega | exact fun h => hav h.symm

/-- The disallowed-pair count of one `_check_field` call. -/
theorem check_field_countP_disallowed (fieldName : String) (v : JVal) (f : Field)
    (cf : List String) (req : Bool) (a b : String) :
    (DictFieldChecker._check_field fieldName v f cf req).1.countP (isDisallowedPair a b)
      = if a = f.name ∧ b ∈ cf then f.disallowedFields.count b else 0 := by
  obtain ⟨pre, heq, hpre⟩ := check_field_errors_split fieldName v f cf req
  rw [heq, List.countP_append]
  have hzero : pre.countP (isDisallowedPair a b) = 0 := by
    rw [List.countP_eq_zero]
    intro e he
    rcases hpre e he with ⟨inner, rfl⟩ | ⟨x, y, rfl⟩ <;> simp [isDisallowedPair]
  rw [hzero, countP_disallowedErrors]
  simp

/-- The required loop emits no disallowed-pair error for a declaring name no
required field bears. -/
theorem req_countP_disallowed_zero (a b : String) (fields : List Field) :
    ∀ (cand : List (String × JVal)) (cf : List String),
    (∀ g ∈ fields, g.name ≠ a) →
    (checkRequiredFields fields cand cf).1.countP (isDisallowedPair a b) = 0 := by
  induction fields with
  | nil => intro cand cf _; simp [checkRequiredFields]
  | cons g rest ih =>
    intro cand cf h
    have hg : g.name ≠ a := h g (by simp)
    have hr : ∀ x ∈ rest, x.name ≠ a := fun x hx => h x (by simp [hx])
    cases hf : dictFind cand g.name with
    | none =>
      simp only [checkRequiredFields, hf]
      rw [List.countP_cons]
      simp [isDisallowedPair, ih cand cf hr]
    | some v =>
      simp only [checkRequiredFields, hf]
      rw [List.countP_append, check_field_countP_disallowed,
        if_neg (fun hc => hg hc.1.symm)]
      simp [ih _ cf hr]

/-- When exactly one required field bears the declaring name, its disallowed
pair is reported exactly once by the required loop. -/
theorem req_countP_disallowed_one (f : Field) (d : String) (pre : List Field) :
    ∀ (post : List Field) (cand : List (String × JVal)) (cf : List String),
    (∀ g ∈ pre ++ post, g.name ≠ f.name) →
    f.name ∈ dictKeys cand →
    d ∈ cf → f.disallowedFields.count d = 1 →
    (checkRequiredFields (pre ++ f :: post) cand cf).1.countP
      (isDisallowedPair f.name d) = 1 := by
  induction pre with
  | nil =>
    intro post cand cf hothers hmem hdcf hcount
    cases hf : dictFind cand f.name with
    | none => exact absurd hmem (dictFind_eq_none.mp hf)
    | some v =>
      simp only [List.nil_append, checkRequiredFields, hf]
      rw [List.countP_append, check_field_countP_disallowed,
        if_pos ⟨rfl, hdcf⟩, hcount]
      have hpost : ∀ g ∈ post, g.name ≠ f.name := fun g hg => hothers g (by simpa using hg)
      rw [req_countP_disallowed_zero f.name d post _ cf hpost]
  | cons g pre ih =>
    intro post cand cf hothers hmem hdcf hcount
    have hg : g.name ≠ f.name := hothers g (by simp)
    have hrest : ∀ x ∈ pre ++ post, x.name ≠ f.name := fun x hx =>
      hothers x (by simp only [List.cons_append, List.mem_cons]; exact .inr hx)
    rw [List.cons_append]
    cases hf : dictFind cand g.name with
    | none =>
      simp only [checkRequiredFields, hf]
      rw [List.countP_cons]
      simp [isDisallowedPair, ih post cand cf hrest hmem hdcf hcount]
    | some v =>
      simp only [checkRequiredFields, hf]
      rw [List.countP_append, check_field_countP_disallowed,
        if_neg (fun hc => hg hc.1.symm)]
      have hmem2 : f.name ∈ dictKeys (dictPop cand g.name) :=
        mem_dictKeys_pop (fun he => hg he.symm) hmem
      simp [ih post _ cf hrest hmem2 hdcf hcount]

/-- A successful `optional_dict` lookup returns a field bearing the looked-up
name (the dict maps each field's name to the field). -/
theorem dictLookupLast_name {hist opt : List Field} {k : String} {vf : Field}
    (h : dictLookupLast (optionalDict hist opt) k = some vf) : vf.name = k := by
  unfold dictLookupLast at h
  cases hf : (optionalDict hist opt).reverse.find? (fun p => p.1 == k) with
  | none => rw [hf] at h; cases h
  | some pr =>
    rw [hf] at h
    simp at h
    have hp := List.find?_some hf
    have hm := List.mem_of_find?_eq_some hf
    rw [List.mem_reverse] at hm
    unfold optionalDict at hm
    obtain ⟨x, _, rfl⟩ := List.mem_map.mp hm
    rw [← h]
    simpa using hp

/-- The remaining-fields loop emits no disallowed-pair error for a declaring
name that matches none of the residual keys. -/
theorem rem_countP_disallowed_zero (hist opt : List Field) (a b : String)
    (rem : List (String × JVal)) : ∀ (cf : List String), (∀ kv ∈ rem, kv.1 ≠ a) →
    (checkRemainingFields hist opt rem cf).1.countP (isDisallowedPair a b) = 0 := by
  induction rem with
  | nil => intro cf _; simp [checkRemainingFields]
  | cons kv rest ih =>
    intro cf h
    obtain ⟨k, v⟩ := kv
    have hk : k ≠ a := h (k, v) (by simp)
    have hr : ∀ x ∈ rest, x.1 ≠ a := fun x hx => h x (by simp [hx])
    simp only [checkRemainingFields]
    split
    next vf heq =>
      rw [List.countP_append, check_field_countP_disallowed,
        if_neg (fun hc => hk (by rw [dictLookupLast_name heq] at hc; exact hc.1.symm))]
      simp [ih cf hr]
    next heq =>
      rw [List.countP_cons]
      simp [isDisallowedPair, ih cf hr]

/-- When the residual entries contain the declaring field's key exactly once
and the lookup resolves to it, the remaining loop reports its disallowed pair
exactly once. -/
theorem rem_countP_disallowed_one (hist opt : List Field) (a d : String) (fa : Field)
    (r1 : List (String × JVal)) :
    ∀ (r2 : List (String × JVal)) (v : JVal) (cf : List String),
    dictLookupLast (optionalDict hist opt) a = some fa →
    fa.disallowedFields.count d = 1 → d ∈ cf →
    (∀ kv ∈ r1 ++ r2, kv.1 ≠ a) →
    (checkRemainingFields hist opt (r1 ++ (a, v) :: r2) cf).1.countP
      (isDisallowedPair a d) = 1 := by
  induction r1 with
  | nil =>
    intro r2 v cf hlk hcount hdcf hothers
    simp only [List.nil_append, checkRemainingFields]
    split
    next vf heq =>
      rw [hlk] at heq
      injection heq with heq
      subst heq
      rw [List.countP_append, check_field_countP_disallowed,
        if_pos ⟨(dictLookupLast_name hlk).symm, hdcf⟩, hcount,
        rem_countP_disallowed_zero hist opt a d r2 cf
          (fun kv hkv => hothers kv (by simpa using hkv))]
    next heq => rw [hlk] at heq; cases heq
  | cons kv r1 ih =>
    intro r2 v cf hlk hcount hdcf hothers
    obtain ⟨k, w⟩ := kv
    have hk : k ≠ a := hothers (k, w) (by simp)
    have hr : ∀ x ∈ r1 ++ r2, x.1 ≠ a := fun x hx =>
      hothers x (by simp only [List.cons_append, List.mem_cons]; exact .inr hx)
    rw [List.cons_append]
    simp only [checkRemainingFields]
    split
    next vf heq =>
      rw [List.countP_append, check_field_countP_disallowed,
        if_neg (fun hc => hk (by rw [dictLookupLast_name heq] at hc; exact hc.1.symm))]
      simp [ih r2 v cf hlk hcount hdcf hr]
    next heq =>
      rw [List.countP_cons]
      simp [isDisallowedPair, ih r2 v cf hlk hcount hdcf hr]

/-- `find?` on a name-keyed association list built from a duplicate-free field
list locates the field itself. -/
theorem findAssoc_self (l : List Field) (f : Field) : ∀ (_ : f ∈ l)
    (_ : (l.map Field.name).Nodup),
    (l.map fun x => (x.name, x)).find? (fun p => p.1 == f.name)
      = some (f.name, f) := by
  induction l with
  | nil => intro hf _; cases hf
  | cons x rest ih =>
    intro hf hnd
    rw [List.map_cons, List.find?_cons]
    rcases List.mem_cons.mp hf with rfl | hf
    · simp
    · rw [List.map_cons, List.nodup_cons] at hnd
      have hx : (x.name == f.name) = false := by
        simp only [beq_eq_false_iff_ne, ne_eq]
        intro he
        exact hnd.1 (he ▸ List.mem_map.mpr ⟨f, hf, rfl⟩)
      rw [hx]
      exact ih hf hnd.2

/-- A field of the optional/historical lists with a unique name is what
`optional_dict` resolves its name to. -/
theorem optionalDict_lookup_self (hist opt : List Field) (f : Field)
    (hf : f ∈ hist ++ opt)
    (hnd : ((hist ++ opt).map Field.name).Nodup) :
    dictLookupLast (optionalDict hist opt) f.name = some f := by
  unfold dictLookupLast optionalDict
  rw [← List.map_reverse, findAssoc_self _ f (List.mem_reverse.mpr hf)
    (by rw [List.map_reverse]; exact List.nodup_reverse.mpr hnd)]
  rfl

/-- In a name-duplicate-free field list, the fields around a split point bear
names different from the split field's. -/
theorem name_once_of_nodup {l1 l2 : List Field} {f : Field}
    (h : ((l1 ++ f :: l2).map Field.name).Nodup) :
    ∀ g ∈ l1 ++ l2, g.name ≠ f.name := by
  intro g hg he
  rw [List.map_append, List.map_cons] at h
  rcases List.mem_append.mp hg with hm | hm
  · exact (List.nodup_append.mp h).2.2 (List.mem_map.mpr ⟨g, hm, rfl⟩)
      (he ▸ List.mem_cons_self _ _)
  · have hn := (List.nodup_append.mp h).2.1
    rw [List.nodup_cons] at hn
    exact hn.1 (he ▸ List.mem_map.mpr ⟨g, hm, rfl⟩)

/-- In an entry list with duplicate-free keys, the entries around a split
point bear keys different from the split entry's. -/
theorem key_once_of_nodup {r1 r2 : List (String × JVal)} {k : String} {v : JVal}
    (h : (dictKeys (r1 ++ (k, v) :: r2)).Nodup) :
    ∀ kv ∈ r1 ++ r2, kv.1 ≠ k := by
  intro kv hkv he
  simp only [dictKeys, List.map_append, List.map_cons] at h
  rcases List.mem_append.mp hkv with hm | hm
  · exact (List.nodup_append.mp h).2.2 (List.mem_map.mpr ⟨kv, hm, rfl⟩)
      (he ▸ List.mem_cons_self _ _)
  · have hn := (List.nodup_append.mp h).2.1
    rw [List.nodup_cons] at hn
    exact hn.1 (he ▸ List.mem_map.mpr ⟨kv, hm, rfl⟩)

/-- C3: for every record in which a declared field and one of its declared
`disallowedFields` are both present, validation reports that declared pair
exactly once, whether the declaring field is required or optional/historical;
the co-occurrence test consults the full original key set, so the result is
independent of which keys the required loop has already consumed. -/
theorem C3_disallowed_pair_once (required opt hist : List Field) (f : Field)
    (d : String) (entries : List (String × JVal)) (r : Bool)
    (hkeys : (dictKeys entries).Nodup)
    (hnames : ((required ++ (hist ++ opt)).map Field.name).Nodup)
    (hdecl : f ∈ required ∨ f ∈ hist ++ opt)
    (hfp : f.name ∈ dictKeys entries)
    (hdis : f.disallowedFields.count d = 1)
    (hdp : d ∈ dictKeys entries) :
    (FieldChecker.validate (.dictFieldChecker required opt hist)
      (.obj entries) r).1.countP (isDisallowedPair f.name d) = 1 := by
  rw [validate_dfc, List.countP_append]
  rw [List.map_append] at hnames
  obtain ⟨hreqn, hoptn, hdisj⟩ := List.nodup_append.mp hnames
  rcases hdecl with hreq | hopt
  · obtain ⟨pre, post, rfl⟩ := List.append_of_mem hreq
    have hothers : ∀ g ∈ pre ++ post, g.name ≠ f.name := name_once_of_nodup hreqn
    rw [req_countP_disallowed_one f d pre post entries (dictKeys entries)
      hothers hfp hdp hdis]
    have hnotres : f.name ∉ dictKeys
        (checkRequiredFields (pre ++ f :: post) entries (dictKeys entries)).2.2 :=
      req_residual_not_mem _ entries (dictKeys entries) f.name hkeys
        ⟨f, by simp, rfl⟩
    rw [rem_countP_disallowed_zero hist opt f.name d _ (dictKeys entries)
      (fun kv hkv he => hnotres (he ▸ List.mem_map.mpr ⟨kv, hkv, rfl⟩))]
  · have hreqnames : ∀ g ∈ required, g.name ≠ f.name := fun g hg he =>
      hdisj (List.mem_map.mpr ⟨g, hg, rfl⟩) (he ▸ List.mem_map.mpr ⟨f, hopt, rfl⟩)
    rw [req_countP_disallowed_zero f.name d required entries (dictKeys entries)
      hreqnames]
    have hres : f.name ∈ dictKeys
        (checkRequiredFields required entries (dictKeys entries)).2.2 :=
      req_residual_mem required entries (dictKeys entries) f.name hreqnames hfp
    have hresnd : (dictKeys
        (checkRequiredFields required entries (dictKeys entries)).2.2).Nodup :=
      hkeys.sublist ((req_residual_sublist required entries (dictKeys entries)).map
        Prod.fst)
    obtain ⟨v, hv⟩ := mem_dictKeys_iff.mp hres
    obtain ⟨r1, r2, hsplit⟩ := List.append_of_mem hv
    rw [hsplit] at hresnd
    rw [hsplit, rem_countP_disallowed_one hist opt f.name d f r1 r2 v
      (dictKeys entries) (optionalDict_lookup_self hist opt f hopt hoptn) hdis hdp
      (key_once_of_nodup hresnd)]

theorem C3_witness :
    (FieldChecker.validate (.dictFieldChecker
        [Field.mk "b" (.prim (.unicodeI "")) [],
         Field.mk "a" (.prim (.unicodeI "")) ["b"]] [] [])
      (.obj [("a", .str "x"), ("b", .str "y")]) true).1.countP
      (isDisallowedPair "a" "b") = 1 :=
  C3_disallowed_pair_once
    [Field.mk "b" (.prim (.unicodeI "")) [], Field.mk "a" (.prim (.unicodeI "")) ["b"]]
    [] [] (Field.mk "a" (.prim (.unicodeI "")) ["b"]) "b"
    [("a", .str "x"), ("b", .str "y")] true (by decide) (by decide)
    (.inl (by simp)) (by decide) (by decide) (by decide)

/-- Budget lemma for the driver loop: once the accumulated errors can only
grow past the budget, the loop breaks at the first line where the budget is
reached, with exactly `N` errors, `stoppedEarly`, and the Python
`lineCount - 1` bookkeeping. -/
theorem vfLoop_budget (fields : FieldChecker) (N : Nat) (hN : 0 < N) :
    ∀ (lines : List (Except String JVal)) (idx : Nat) (lc : Int)
      (errors : List DriverErr) (warnings : List Warn),
    errors.length ≤ N →
    N < errors.length + lines.countP (errTrigger fields) →
    ∃ k E W, k < lines.length ∧
      _validateFileLoop fields (N : Int) idx lc errors warnings lines
        = (E, W, (idx : Int) + (k : Int) - 1, true)
      ∧ E.length = N
      ∧ errors.length + (lines.take k).countP (errTrigger fields) = N
      ∧ ∀ j < k, errors.length + (lines.take j).countP (errTrigger fields) < N := by
  intro lines
  induction lines with
  | nil =>
    intro idx lc errors warnings hle hgt
    simp only [List.countP_nil] at hgt
    omega
  | cons line rest ih =>
    intro idx lc errors warnings hle hgt
    by_cases hfull : errors.length = N
    · refine ⟨0, errors, warnings, by simp, ?_, hfull, by simpa using hfull,
        by omega⟩
      simp only [_validateFileLoop]
      rw [if_pos ⟨by exact_mod_cast hN, by exact_mod_cast le_of_eq hfull.symm⟩]
      norm_num
    · have hlt : errors.length < N := lt_of_le_of_ne hle hfull
      have hcond : ¬((N : Int) > 0 ∧ (errors.length : Int) ≥ (N : Int)) := by
        push_cast; omega
      cases line with
      | error reason =>
        have hte : errTrigger fields (.error reason) = true := rfl
        rw [List.countP_cons_of_pos _ _ hte] at hgt
        obtain ⟨k, E, W, hklen, hloop, hlen, hcount, hmin⟩ :=
          ih (idx + 1) (idx : Int) (errors ++ [.invalidJson (idx + 1) reason]) warnings
            (by simp; omega) (by simp; omega)
        simp only [List.length_append, List.length_singleton] at hcount hmin
        refine ⟨k + 1, E, W, by simpa using hklen, ?_, hlen, ?_, ?_⟩
        · simp only [_validateFileLoop]
          rw [if_neg hcond, hloop]
          have : ((idx + 1 : Nat) : Int) + (k : Int) - 1
              = (idx : Int) + ((k + 1 : Nat) : Int) - 1 := by push_cast; ring
          rw [this]
        · rw [List.take_succ_cons, List.countP_cons_of_pos _ _ hte]
          omega
        · intro j hj
          cases j with
          | zero => simpa using hlt
          | succ j =>
            have := hmin j (by omega)
            rw [List.take_succ_cons, List.countP_cons_of_pos _ _ hte]
            omega
      | ok candidate =>
        by_cases htrig : 0 < (FieldChecker.validate fields candidate true).1.length
        · have htf : errTrigger fields (.ok candidate) = true := by
            simp only [errTrigger]
            exact decide_eq_true htrig
          rw [List.countP_cons_of_pos _ _ htf] at hgt
          obtain ⟨k, E, W, hklen, hloop, hlen, hcount, hmin⟩ :=
            ih (idx + 1) (idx : Int)
              (errors ++ [.schemaMismatch (idx + 1)
                (FieldChecker.validate fields candidate true).1])
              (warnings ++ (FieldChecker.validate fields candidate true).2)
              (by simp; omega) (by simp; omega)
          simp only [List.length_append, List.length_singleton] at hcount hmin
          refine ⟨k + 1, E, W, by simpa using hklen, ?_, hlen, ?_, ?_⟩
          · simp only [_validateFileLoop]
            rw [if_neg hcond, if_pos htrig, hloop]
            have : ((idx + 1 : Nat) : Int) + (k : Int) - 1
                = (idx : Int) + ((k + 1 : Nat) : Int) - 1 := by push_cast; ring
            rw [this]
          · rw [List.take_succ_cons, List.countP_cons_of_pos _ _ htf]
            omega
          · intro j hj
            cases j with
            | zero => simpa using hlt
            | succ j =>
              have := hmin j (by omega)
              rw [List.take_succ_cons, List.countP_cons_of_pos _ _ htf]
              omega
        · have htf : errTrigger fields (.ok candidate) = false := by
            simp only [errTrigger]
            exact decide_eq_false htrig
          rw [List.countP_cons_of_neg _ _ (by simp [htf])] at hgt
          obtain ⟨k, E, W, hklen, hloop, hlen, hcount, hmin⟩ :=
            ih (idx + 1) (idx : Int) errors
              (warnings ++ (FieldChecker.validate fields candidate true).2)
              hle (by omega)
          refine ⟨k + 1, E, W, by simpa using hklen, ?_, hlen, ?_, ?_⟩
          · simp only [_validateFileLoop]
            rw [if_neg hcond, if_neg htrig, hloop]
            have : ((idx + 1 : Nat) : Int) + (k : Int) - 1
                = (idx : Int) + ((k + 1 : Nat) : Int) - 1 := by push_cast; ring
            rw [this]
          · rw [List.take_succ_cons, List.countP_cons_of_neg _ _ (by simp [htf])]
            omega
          · intro j hj
            cases j with
            | zero => simpa using hlt
            | succ j =>
              have := hmin j (by omega)
              rw [List.take_succ_cons, List.countP_cons_of_neg _ _ (by simp [htf])]
              omega

/-- C2: with a configured budget `max_errors = N > 0` and a stream producing
more than `N` error-triggering lines, the driver stops early with exactly `N`
accumulated errors, `stoppedEarly = true`, and `linesProcessed` equal to the
number of lines actually examined: the first `k` lines, whose error triggers
exactly exhaust the budget, excluding the line at which the budget check
fires. -/
theorem C2_error_budget (fields : FieldChecker) (N : Nat) (hN : 0 < N)
    (lines : List (Except String JVal))
    (hmany : N < lines.countP (errTrigger fields)) :
    ∃ (k : Nat) (E : List DriverErr) (W : List Warn),
      _validateFile fields (N : Int) lines = (E, W, (k : Int), true)
      ∧ E.length = N
      ∧ k < lines.length
      ∧ (lines.take k).countP (errTrigger fields) = N
      ∧ ∀ j < k, (lines.take j).countP (errTrigger fields) < N := by
  obtain ⟨k, E, W, hklen, hloop, hlen, hcount, hmin⟩ :=
    vfLoop_budget fields N hN lines 0 0 [] [] (by simp) (by simpa using hmany)
  simp only [List.length_nil, Nat.zero_add] at hcount hmin
  have hk0 : 0 < k := by
    by_contra hk
    have : k = 0 := by omega
    subst this
    simp at hcount
    omega
  refine ⟨k, E, W, ?_, hlen, hklen, hcount, fun j hj => hmin j hj⟩
  unfold _validateFile
  rw [hloop]
  have harith : ((0 : Nat) : Int) + (k : Int) - 1 + 1 = (k : Int) := by push_cast; ring
  simp only [harith]

theorem C2_witness :
    ∃ (k : Nat) (E : List DriverErr) (W : List Warn),
      _validateFile (FieldChecker.stringListChecker []) ((1 : Nat) : Int)
        ([.error "x", .error "y"] : List (Except String JVal)) = (E, W, (k : Int), true)
      ∧ E.length = 1
      ∧ k < ([.error "x", .error "y"] : List (Except String JVal)).length
      ∧ ((([.error "x", .error "y"] : List (Except String JVal)).take k).countP
          (errTrigger (FieldChecker.stringListChecker []))) = 1
      ∧ ∀ j < k, ((([.error "x", .error "y"] : List (Except String JVal)).take j).countP
          (errTrigger (FieldChecker.stringListChecker []))) < 1 :=
  C2_error_budget (FieldChecker.stringListChecker []) 1 (by decide)
    ([.error "x", .error "y"] : List (Except String JVal)) (by decide)

end JsonValidator
